import Mathlib

/-!
Verification of the shared text-to-vector pipeline of the movie-recommender
notebook and the spam-classifier notebook.

The own code of the recommender notebook (feature extraction, the `recommend`
function) is embedded directly.  The numeric encoder, vocabulary builder and
classifier are invoked through a third-party library whose implementation is
not part of the repository, so those parts are modelled from the spec, as
marked on each definition.

Floating-point scores are modelled as rationals (every machine float is a
rational number); the real-valued tf-idf mathematics is modelled over `ℝ`.
-/

set_option maxHeartbeats 1000000

namespace MovieSpam

/-! ### Stable sorting

The Python builtin `sorted` is a stable sort: `sorted(xs, key=k, reverse=True)`
orders by descending key and keeps elements with equal keys in their original
relative order.  We model it with a stable insertion sort: an element is
inserted, from the rightmost input element leftwards, in front of the first
element it is `le`-related to, so with a reflexive `le` earlier input elements
stay in front of later equal ones. -/

/-- Insert `x` into `l`, placing it before the first element `y` with `le x y`. -/
def insertBy (le : α → α → Prop) [DecidableRel le] (x : α) : List α → List α
  | [] => [x]
  | y :: ys => if le x y then x :: y :: ys else y :: insertBy le x ys

/-- Stable insertion sort by `le`. -/
def sortBy (le : α → α → Prop) [DecidableRel le] : List α → List α
  | [] => []
  | x :: xs => insertBy le x (sortBy le xs)

/-! ### Feature assembly (movie notebook, cells 6 and 7) -/

/-- A named entity as parsed from the `genres`, `keywords` or `cast` JSON
columns; the notebook reads only the `name` field. -/
structure NamedEntity where
  name : String
  deriving DecidableEq

/-- A crew entry as parsed from the `crew` JSON column; the notebook reads the
`name` and `job` fields. -/
structure CrewMember where
  name : String
  job : String
  deriving DecidableEq

/-- Embeds the notebook function `extract_names`: collect every `name`. -/
def extract_names (obj : List NamedEntity) : List String :=
  obj.map fun e => e.name

/-- Loop of the notebook function `extract_cast`: append names while the counter is
below 3, then break. -/
def extractCastFrom : Nat → List NamedEntity → List String
  | _, [] => []
  | counter, c :: cs =>
      if counter < 3 then c.name :: extractCastFrom (counter + 1) cs else []

/-- Embeds the notebook function `extract_cast` (counter starts at 0). -/
def extract_cast (obj : List NamedEntity) : List String :=
  extractCastFrom 0 obj

/-- Embeds the notebook function `extract_director`: the first crew entry whose `job` is
`"Director"`, as a singleton list (the loop breaks after the first hit). -/
def extract_director : List CrewMember → List String
  | [] => []
  | c :: cs => if c.job == "Director" then [c.name] else extract_director cs

/-- Space removal applied to multi-word entity names
(`i.replace(" ","")` in the notebook). -/
def removeSpaces (s : String) : String :=
  s.replace " " ""

/-- Models the Python `str.split()` call on an overview string: split on whitespace and
drop empty pieces. -/
def overviewTokens (s : String) : List String :=
  (s.split fun c => c.isWhitespace).filter fun w => w ≠ ""

/-- One movie row of the merged dataframe, with the columns the notebook keeps. -/
structure MovieRecord where
  movie_id : Nat
  title : String
  overview : String
  genres : List NamedEntity
  keywords : List NamedEntity
  cast : List NamedEntity
  crew : List CrewMember

/-- Embeds the `tags` column of the notebook:
`overview + genres + keywords + cast + crew`, with entity names space-stripped. -/
def tags (m : MovieRecord) : List String :=
  overviewTokens m.overview ++
    (extract_names m.genres).map removeSpaces ++
    (extract_names m.keywords).map removeSpaces ++
    (extract_cast m.cast).map removeSpaces ++
    (extract_director m.crew).map removeSpaces

/-! ### The recommender (movie notebook, cell 11) -/

/-- Character-wise lowercasing, modelling the Python `str.lower()` method (the library `String.toLower` is the same character-wise map; this form reduces in the kernel). -/
def lower (s : String) : String :=
  String.mk (s.data.map Char.toLower)

/-- The error string the source `recommend` returns when the title is absent. -/
def errorMessage : String :=
  "Movie not found. Please check the spelling."

/-- Index of the first title whose lowercasing equals the lowercased query
(the notebook filters the dataframe on the lowercased title column and takes the first index, preceded by the membership test). -/
def findTitleIdx (titles : List String) (movie : String) : Option Nat :=
  titles.findIdx? fun t => lower t == lower movie

/-- Ordering used by `sorted(..., key=lambda x: x[1], reverse=True)`:
`x` may stay in front of `y` exactly when the score of `x` is at least the score of `y`. -/
def scoreLe (x y : Nat × ℚ) : Prop :=
  y.2 ≤ x.2

instance : DecidableRel scoreLe :=
  fun x y => inferInstanceAs (Decidable (y.2 ≤ x.2))

/-- Embeds `sorted(list(enumerate(distances)), reverse=True, key=lambda x: x[1])`. -/
def sortedCandidates (distances : List ℚ) : List (Nat × ℚ) :=
  sortBy scoreLe distances.enum

/-- The slice `[1:6]` of the sorted candidate list. -/
def topCandidates (distances : List ℚ) : List (Nat × ℚ) :=
  ((sortedCandidates distances).drop 1).take 5

/-- Embeds the notebook function `recommend`: on a miss it returns the error string; on a hit
it outputs the titles of the sliced sorted candidate list (the notebook prints
them; the deployment variant returns them). -/
def recommend (titles : List String) (similarity : List (List ℚ)) (movie : String) :
    Sum String (List String) :=
  match findTitleIdx titles movie with
  | none => Sum.inl errorMessage
  | some index =>
      Sum.inr ((topCandidates (similarity.getD index [])).map fun p => titles.getD p.1 "")

/-- Result type of the query interface as the error taxonomy of the spec demands. -/
inductive RecResult where
  | NotFound : RecResult
  | Found : List String → RecResult
  deriving DecidableEq

/-- Modelled from the spec: the query interface
`recommend(title) -> ordered sequence of title strings (length ≤5) | NotFound`,
with the self-exclusion the similarity-engine contract requires.  The source
notebook has no such typed result; its `recommend` is `recommend` above. -/
def recommendSpec (titles : List String) (similarity : List (List ℚ)) (movie : String) :
    RecResult :=
  match findTitleIdx titles movie with
  | none => RecResult.NotFound
  | some index =>
      RecResult.Found
        ((((sortedCandidates (similarity.getD index [])).filter fun p => p.1 != index).take 5).map
          fun p => titles.getD p.1 "")

/-! ### Vocabulary builder

The source calls the library vectorizer with a 5000-term cap and the fixed
english stop-word list; the vectorizer implementation is library code outside the repository, so the
vocabulary builder is modelled from the spec. -/

/-- Document frequency: the number of documents containing the term at least
once. -/
def docFreq (corpus : List (List String)) (t : String) : Nat :=
  (corpus.filter fun d => d.contains t).length

/-- Modelled from the spec: vocabulary-builder options `max_terms`,
`stop_words` and `min_df` (the source passes a 5000-term cap, the fixed
english stop-word list, and the default minimum document frequency). -/
structure VocabOptions where
  max_terms : Option Nat := none
  stop_words : List String := []
  min_df : Nat := 1
  deriving DecidableEq

/-- Modelled from the spec: the index-assignment order — a stable sort by
descending document frequency, ties broken by lexicographic term order. -/
def vocabLe (corpus : List (List String)) (t u : String) : Prop :=
  docFreq corpus u < docFreq corpus t ∨ (docFreq corpus t = docFreq corpus u ∧ t ≤ u)

instance (corpus : List (List String)) : DecidableRel (vocabLe corpus) :=
  fun t u =>
    inferInstanceAs
      (Decidable (docFreq corpus u < docFreq corpus t ∨
        (docFreq corpus t = docFreq corpus u ∧ t ≤ u)))

/-- Modelled from the spec: the distinct corpus terms that survive the
stop-word set and the `min_df` threshold. -/
def eligibleTerms (corpus : List (List String)) (O : VocabOptions) : List String :=
  corpus.flatten.dedup.filter fun t =>
    !(O.stop_words.contains t) && decide (O.min_df ≤ docFreq corpus t)

/-- Modelled from the spec: `fit(corpus, options) -> Vocabulary`; the term at
position `i` of the returned list has index `i`. -/
def fitVocab (corpus : List (List String)) (O : VocabOptions) : List String :=
  match O.max_terms with
  | none => sortBy (vocabLe corpus) (eligibleTerms corpus O)
  | some k => (sortBy (vocabLe corpus) (eligibleTerms corpus O)).take k

/-! ### TF-IDF encoder (modelled from the spec, over `ℝ`) -/

/-- Term frequency: the raw count of the term in the document. -/
def tf (t : String) (d : List String) : Nat :=
  d.count t

/-- Modelled from the spec: `idf(t) = ln(N / df(t))` with natural logarithm,
`N` the corpus size and `df` the document frequency; `0` for terms outside the
fitted vocabulary. -/
noncomputable def idf (corpus : List (List String)) (vocab : List String) (t : String) : ℝ :=
  if t ∈ vocab then Real.log ((corpus.length : ℝ) / (docFreq corpus t : ℝ)) else 0

/-- Modelled from the spec: the unnormalized weight vector of a document, one
entry `tf(t,d) * idf(t)` per vocabulary term, in vocabulary-index order. -/
noncomputable def tfidfWeights (corpus : List (List String)) (vocab : List String)
    (d : List String) : List ℝ :=
  vocab.map fun t => (tf t d : ℝ) * idf corpus vocab t

/-- Sum of squared entries of a vector. -/
noncomputable def normSq (v : List ℝ) : ℝ :=
  (v.map fun x => x ^ 2).sum

/-- Euclidean norm of a vector. -/
noncomputable def l2norm (v : List ℝ) : ℝ :=
  Real.sqrt (normSq v)

/-- Modelled from the spec: `transform(document)` — the weight vector, L2
normalized, with the zero-norm case explicitly guarded (the vector stays
all-zero instead of dividing by zero). -/
noncomputable def transform (corpus : List (List String)) (vocab : List String)
    (d : List String) : List ℝ :=
  if l2norm (tfidfWeights corpus vocab d) = 0 then tfidfWeights corpus vocab d
  else (tfidfWeights corpus vocab d).map fun x => x / l2norm (tfidfWeights corpus vocab d)

/-- Dot product of two vectors. -/
noncomputable def dotR (u v : List ℝ) : ℝ :=
  (List.zipWith (fun a b => a * b) u v).sum

/-- Modelled from the spec: cosine similarity
`cos(u,v) = (u·v) / (|u| |v|)`, with zero-norm vectors given similarity 0 as
the library function `cosine_similarity` does. -/
noncomputable def cosineSim (u v : List ℝ) : ℝ :=
  if l2norm u = 0 ∨ l2norm v = 0 then 0 else dotR u v / (l2norm u * l2norm v)

/-! ### Linear classifier (spam notebook, cell 4.2)

The source calls `LogisticRegression().fit(X_train, y_train)`; the classifier
implementation is library code outside the repository, so training is modelled
from the spec. -/

/-- Typed training errors from the error taxonomy of the spec. -/
inductive TrainError where
  | LabelMismatchError : TrainError
  | EmptyTrainingSetError : TrainError
  deriving DecidableEq

/-- A trained binary classifier: a weight per vocabulary dimension plus a bias. -/
structure Model where
  weights : List ℚ
  bias : ℚ
  deriving DecidableEq

/-- Piecewise-linear surrogate of the logistic sigmoid, keeping the optimizer
rational-valued. -/
def sigmoidApprox (z : ℚ) : ℚ :=
  max 0 (min 1 (1 / 2 + z / 4))

/-- Dot product of two rational vectors. -/
def dotQ (u v : List ℚ) : ℚ :=
  (List.zipWith (fun a b => a * b) u v).sum

/-- Predicted probability of the positive class. -/
def predictScore (m : Model) (x : List ℚ) : ℚ :=
  sigmoidApprox (dotQ m.weights x + m.bias)

/-- One gradient-style update of the model on a single labelled example. -/
def updateModel (lr : ℚ) (m : Model) (x : List ℚ) (y : ℚ) : Model :=
  let err := predictScore m x - y
  { weights := List.zipWith (fun w xi => w - lr * err * xi) m.weights x
    bias := m.bias - lr * err }

/-- Fixed iteration cap, an explicit convergence parameter as the spec demands. -/
def maxIterations : Nat := 100

/-- Fixed learning rate, an explicit convergence parameter as the spec demands. -/
def learningRate : ℚ := 1 / 10

/-- One pass over the training data. -/
def runEpoch (lr : ℚ) (data : List (List ℚ × ℚ)) (m : Model) : Model :=
  data.foldl (fun acc p => updateModel lr acc p.1 p.2) m

/-- Modelled from the spec: gradient-based logistic training with explicit
fixed convergence parameters (the exact numerical method is an implementation
freedom the spec grants). -/
def fitModel (vectors : List (List ℚ)) (labels : List ℚ) : Model :=
  (runEpoch learningRate (vectors.zip labels))^[maxIterations]
    { weights := List.replicate (vectors.headD []).length 0, bias := 0 }

/-- Modelled from the spec: `train(vectors, labels) -> Model`, failing with
`EmptyTrainingSetError` if either input is empty and with `LabelMismatchError`
if the counts differ; no model value is produced on failure. -/
def train (vectors : List (List ℚ)) (labels : List ℚ) : Except TrainError Model :=
  if vectors = [] ∨ labels = [] then Except.error TrainError.EmptyTrainingSetError
  else if vectors.length ≠ labels.length then Except.error TrainError.LabelMismatchError
  else Except.ok (fitModel vectors labels)

/-! ### Spam notebook preprocessing (cells 2.3, 3.1 and 4.1) -/

/-- A raw CSV row; a missing field is `none`. -/
structure RawMailRow where
  Category : Option String
  Message : Option String
  deriving DecidableEq

/-- A row after `dropna`. -/
structure MailRow where
  Category : String
  Message : String
  deriving DecidableEq

/-- Embeds `df.dropna()`: keep only rows with both fields present. -/
def dropna (rows : List RawMailRow) : List MailRow :=
  rows.filterMap fun r =>
    match r.Category, r.Message with
    | some c, some m => some ⟨c, m⟩
    | _, _ => none

/-- Helper of `dropDuplicates` keeping the first occurrence of each row. -/
def dropDupAux : List MailRow → List MailRow → List MailRow
  | _, [] => []
  | seen, r :: rs =>
      if seen.contains r then dropDupAux seen rs else r :: dropDupAux (r :: seen) rs

/-- Embeds `df.drop_duplicates()`: keep the first occurrence of each row. -/
def dropDuplicates (rows : List MailRow) : List MailRow :=
  dropDupAux [] rows

/-- The dataframe reaching the feature-engineering cells. -/
def preprocessed (rows : List RawMailRow) : List MailRow :=
  dropDuplicates (dropna rows)

/-- Embeds the Category-to-label dict map applied to one value: a pandas
dict-`map` yields a missing value (NaN) for keys outside the dict, modelled as
`none`. -/
def labelMap (c : String) : Option ℤ :=
  if c = "spam" then some 1 else if c = "ham" then some 0 else none

/-- The `label` column. -/
def labelColumn (rows : List MailRow) : List (Option ℤ) :=
  rows.map fun r => labelMap r.Category

/-- The pair handed to `train_test_split(X, df["label"], ...)`: the message
column and the label column; the notebook applies no filtering between the
label conversion and the split. -/
def splitInput (rows : List RawMailRow) : List String × List (Option ℤ) :=
  ((preprocessed rows).map MailRow.Message, labelColumn (preprocessed rows))

/-! ## Lemmas about the stable sort -/

theorem mem_insertBy {le : α → α → Prop} [DecidableRel le] (x a : α) :
    ∀ l : List α, a ∈ insertBy le x l → a = x ∨ a ∈ l := by
  intro l
  induction l with
  | nil =>
      intro h
      simp only [insertBy, List.mem_singleton] at h
      exact Or.inl h
  | cons y ys ih =>
      intro h
      simp only [insertBy] at h
      by_cases hle : le x y
      · rw [if_pos hle] at h
        rcases List.mem_cons.mp h with h | h
        · exact Or.inl h
        · exact Or.inr h
      · rw [if_neg hle] at h
        rcases List.mem_cons.mp h with h | h
        · exact Or.inr (h ▸ List.mem_cons_self y ys)
        · rcases ih h with h1 | h1
          · exact Or.inl h1
          · exact Or.inr (List.mem_cons_of_mem y h1)

theorem insertBy_perm {le : α → α → Prop} [DecidableRel le] (x : α) :
    ∀ l : List α, List.Perm (insertBy le x l) (x :: l) := by
  intro l
  induction l with
  | nil => simp [insertBy]
  | cons y ys ih =>
      simp only [insertBy]
      by_cases hle : le x y
      · rw [if_pos hle]
      · rw [if_neg hle]
        exact List.Perm.trans (List.Perm.cons y ih) (List.Perm.swap x y ys)

theorem sortBy_perm {le : α → α → Prop} [DecidableRel le] :
    ∀ l : List α, List.Perm (sortBy le l) l := by
  intro l
  induction l with
  | nil => simp [sortBy]
  | cons x xs ih =>
      exact List.Perm.trans (insertBy_perm x (sortBy le xs)) (List.Perm.cons x ih)

theorem pairwise_insertBy {le : α → α → Prop} [DecidableRel le]
    (htot : ∀ a b, le a b ∨ le b a) (htrans : ∀ a b c, le a b → le b c → le a c)
    (x : α) : ∀ l : List α, l.Pairwise le → (insertBy le x l).Pairwise le := by
  intro l
  induction l with
  | nil => intro _; simp [insertBy]
  | cons y ys ih =>
      intro h
      rcases List.pairwise_cons.mp h with ⟨hy, hys⟩
      simp only [insertBy]
      by_cases hle : le x y
      · rw [if_pos hle]
        refine List.pairwise_cons.mpr ⟨?_, h⟩
        intro z hz
        rcases List.mem_cons.mp hz with rfl | hz
        · exact hle
        · exact htrans x y z hle (hy z hz)
      · rw [if_neg hle]
        refine List.pairwise_cons.mpr ⟨?_, ih hys⟩
        intro z hz
        rcases mem_insertBy x z ys hz with rfl | hz
        · rcases htot z y with h1 | h1
          · exact absurd h1 hle
          · exact h1
        · exact hy z hz

theorem pairwise_sortBy {le : α → α → Prop} [DecidableRel le]
    (htot : ∀ a b, le a b ∨ le b a) (htrans : ∀ a b c, le a b → le b c → le a c) :
    ∀ l : List α, (sortBy le l).Pairwise le := by
  intro l
  induction l with
  | nil => simp [sortBy]
  | cons x xs ih => exact pairwise_insertBy htot htrans x (sortBy le xs) ih

/-! ## Stability of the candidate sort

`sortedCandidates` sorts index-score pairs by descending score; because the
indices coming out of `enumerate` are strictly increasing and the insertion is
stable, equal scores end up in ascending index order. -/

theorem rankR_trans {a b c : Nat × ℚ}
    (h1 : b.2 < a.2 ∨ (a.2 = b.2 ∧ a.1 < b.1))
    (h2 : c.2 < b.2 ∨ (b.2 = c.2 ∧ b.1 < c.1)) :
    c.2 < a.2 ∨ (a.2 = c.2 ∧ a.1 < c.1) := by
  rcases h1 with h1 | ⟨he1, hi1⟩
  · rcases h2 with h2 | ⟨he2, hi2⟩
    · exact Or.inl (h2.trans h1)
    · exact Or.inl (he2 ▸ h1)
  · rcases h2 with h2 | ⟨he2, hi2⟩
    · exact Or.inl (by rw [he1]; exact h2)
    · exact Or.inr ⟨he1.trans he2, hi1.trans hi2⟩

theorem pairwise_insert_rank (x : Nat × ℚ) :
    ∀ l : List (Nat × ℚ), (∀ y ∈ l, x.1 < y.1) →
      l.Pairwise (fun a b => b.2 < a.2 ∨ (a.2 = b.2 ∧ a.1 < b.1)) →
      (insertBy scoreLe x l).Pairwise (fun a b => b.2 < a.2 ∨ (a.2 = b.2 ∧ a.1 < b.1)) := by
  intro l
  induction l with
  | nil => intro _ _; simp [insertBy]
  | cons y ys ih =>
      intro hidx h
      rcases List.pairwise_cons.mp h with ⟨hy, hys⟩
      simp only [insertBy]
      by_cases hle : scoreLe x y
      · rw [if_pos hle]
        have hRxy : y.2 < x.2 ∨ (x.2 = y.2 ∧ x.1 < y.1) := by
          have hle' : y.2 ≤ x.2 := hle
          rcases lt_or_eq_of_le hle' with h1 | h1
          · exact Or.inl h1
          · exact Or.inr ⟨h1.symm, hidx y (List.mem_cons_self y ys)⟩
        refine List.pairwise_cons.mpr ⟨?_, h⟩
        intro z hz
        rcases List.mem_cons.mp hz with rfl | hz
        · exact hRxy
        · exact rankR_trans hRxy (hy z hz)
      · rw [if_neg hle]
        have hyx : x.2 < y.2 := not_le.mp fun hcon => hle hcon
        refine List.pairwise_cons.mpr
          ⟨?_, ih (fun z hz => hidx z (List.mem_cons_of_mem y hz)) hys⟩
        intro z hz
        rcases mem_insertBy x z ys hz with rfl | hz
        · exact Or.inl hyx
        · exact hy z hz

theorem pairwise_sort_rank :
    ∀ l : List (Nat × ℚ), l.Pairwise (fun a b => a.1 < b.1) →
      (sortBy scoreLe l).Pairwise (fun a b => b.2 < a.2 ∨ (a.2 = b.2 ∧ a.1 < b.1)) := by
  intro l
  induction l with
  | nil => intro _; simp [sortBy]
  | cons x xs ih =>
      intro h
      rcases List.pairwise_cons.mp h with ⟨hx, hxs⟩
      have hmem : ∀ y ∈ sortBy scoreLe xs, x.1 < y.1 := fun y hy =>
        hx y ((sortBy_perm xs).subset hy)
      exact pairwise_insert_rank x (sortBy scoreLe xs) hmem (ih hxs)

theorem le_fst_of_mem_enumFrom :
    ∀ (l : List α) (n : Nat) (y : Nat × α), y ∈ List.enumFrom n l → n ≤ y.1 := by
  intro l
  induction l with
  | nil => intro n y h; simp [List.enumFrom] at h
  | cons a as ih =>
      intro n y h
      rcases List.mem_cons.mp h with rfl | h
      · exact le_refl n
      · exact le_trans (Nat.le_succ n) (ih (n + 1) y h)

theorem pairwise_enumFrom :
    ∀ (l : List α) (n : Nat), (List.enumFrom n l).Pairwise (fun a b => a.1 < b.1) := by
  intro l
  induction l with
  | nil => intro n; simp [List.enumFrom]
  | cons a as ih =>
      intro n
      refine List.pairwise_cons.mpr ⟨?_, ih (n + 1)⟩
      intro y hy
      exact lt_of_lt_of_le (Nat.lt_succ_self n) (le_fst_of_mem_enumFrom as (n + 1) y hy)

theorem pairwise_enum (l : List α) : l.enum.Pairwise (fun a b => a.1 < b.1) :=
  pairwise_enumFrom l 0

theorem scoreLe_total (a b : Nat × ℚ) : scoreLe a b ∨ scoreLe b a :=
  le_total b.2 a.2

theorem scoreLe_trans (a b c : Nat × ℚ) (h1 : scoreLe a b) (h2 : scoreLe b c) :
    scoreLe a c :=
  le_trans (h2 : c.2 ≤ b.2) (h1 : b.2 ≤ a.2)

theorem sortedCandidates_pairwise_scoreLe (distances : List ℚ) :
    (sortedCandidates distances).Pairwise scoreLe :=
  pairwise_sortBy scoreLe_total scoreLe_trans distances.enum

theorem sortedCandidates_pairwise_rank (distances : List ℚ) :
    (sortedCandidates distances).Pairwise
      (fun a b => b.2 < a.2 ∨ (a.2 = b.2 ∧ a.1 < b.1)) :=
  pairwise_sort_rank distances.enum (pairwise_enum distances)

theorem topCandidates_sublist (distances : List ℚ) :
    List.Sublist (topCandidates distances) (sortedCandidates distances) :=
  List.Sublist.trans (List.take_sublist 5 ((sortedCandidates distances).drop 1))
    (List.drop_sublist 1 (sortedCandidates distances))

theorem findIdx?_none_of_forall {p : α → Bool} :
    ∀ l : List α, (∀ x ∈ l, p x = false) → l.findIdx? p = none := by
  intro l
  induction l with
  | nil => intro _; rfl
  | cons a as ih =>
      intro h
      have ha := h a (List.mem_cons_self a as)
      have has := ih fun x hx => h x (List.mem_cons_of_mem a hx)
      simp [List.findIdx?_cons, ha, has]

/-! ## C5: tie-break of the similarity sort -/

/-- Claim C5 (confirmed): whenever two candidates carry equal similarity
scores, the sorted candidate list — both before and after the `[1:6]` slice
taken by `recommend` — places the candidate with the smaller corpus index
first; the sort is a deterministic function of its input. -/
theorem similarity_sort_tiebreak_ascending_index (distances : List ℚ) :
    (sortedCandidates distances).Pairwise (fun a b => a.2 = b.2 → a.1 < b.1) ∧
    (topCandidates distances).Pairwise (fun a b => a.2 = b.2 → a.1 < b.1) := by
  have h : (sortedCandidates distances).Pairwise (fun a b => a.2 = b.2 → a.1 < b.1) := by
    refine (sortedCandidates_pairwise_rank distances).imp ?_
    intro a b hab heq
    rcases hab with hab | hab
    · exact absurd (heq ▸ hab) (lt_irrefl _)
    · exact hab.2
  exact ⟨h, h.sublist (topCandidates_sublist distances)⟩

/-- Witness for C5 at a concrete row with a tie at score 1. -/
theorem similarity_sort_tiebreak_ascending_index_witness :
    (sortedCandidates [1, 1, 0]).Pairwise (fun a b => a.2 = b.2 → a.1 < b.1) ∧
    (topCandidates [1, 1, 0]).Pairwise (fun a b => a.2 = b.2 → a.1 < b.1) :=
  similarity_sort_tiebreak_ascending_index [1, 1, 0]

/-! ## C6: shape and order of a successful recommendation -/

/-- Claim C6 (confirmed): when the queried title matches a corpus title, the
source `recommend` outputs the titles of the sliced sorted candidate list of
the similarity row of the matched movie: at most 5 titles, whose underlying
similarity scores are in descending order. -/
theorem recommend_found_top5_descending (titles : List String)
    (similarity : List (List ℚ)) (movie : String) (index : Nat)
    (h : findTitleIdx titles movie = some index) :
    recommend titles similarity movie =
      Sum.inr ((topCandidates (similarity.getD index [])).map fun p => titles.getD p.1 "") ∧
    ((topCandidates (similarity.getD index [])).map fun p => titles.getD p.1 "").length ≤ 5 ∧
    (topCandidates (similarity.getD index [])).Pairwise (fun a b => b.2 ≤ a.2) := by
  refine ⟨?_, ?_, ?_⟩
  · unfold recommend
    rw [h]
  · rw [List.length_map]
    exact List.length_take_le 5 _
  · exact (sortedCandidates_pairwise_scoreLe (similarity.getD index [])).sublist
      (topCandidates_sublist (similarity.getD index []))

/-- Witness for C6 at a concrete corpus where the query matches
(case-insensitively) the first title. -/
theorem recommend_found_top5_descending_witness :
    findTitleIdx ["A", "B"] "a" = some 0 ∧
    (recommend ["A", "B"] [[1, 0], [0, 1]] "a" =
      Sum.inr ((topCandidates ([[(1:ℚ), 0], [0, 1]].getD 0 [])).map
        fun p => ["A", "B"].getD p.1 "") ∧
    ((topCandidates ([[(1:ℚ), 0], [0, 1]].getD 0 [])).map
        fun p => ["A", "B"].getD p.1 "").length ≤ 5 ∧
    (topCandidates ([[(1:ℚ), 0], [0, 1]].getD 0 [])).Pairwise (fun a b => b.2 ≤ a.2)) :=
  ⟨by decide, recommend_found_top5_descending ["A", "B"] [[1, 0], [0, 1]] "a" 0 (by decide)⟩

/-! ## C1: behaviour on a missing title -/

/-- Claim C1 (corrected), counterexample to the claim as stated: on a title
with no case-insensitive match the source `recommend` returns the error
string, not the typed `NotFound` result the redesigned spec interface
(`recommendSpec`) produces. -/
theorem recommend_notfound_returns_error_string :
    recommend ["A", "B", "C"] [[1, 0, 0], [0, 1, 0], [0, 0, 1]] "Nonexistent Movie" =
      Sum.inl "Movie not found. Please check the spelling." ∧
    recommendSpec ["A", "B", "C"] [[1, 0, 0], [0, 1, 0], [0, 0, 1]] "Nonexistent Movie" =
      RecResult.NotFound := by
  exact ⟨by decide, by decide⟩

/-- Claim C1 (amended): for every title with no case-insensitive exact match
among the corpus titles, the source `recommend` returns the fixed error string
— never a silent best-guess recommendation list. -/
theorem recommend_no_match_is_error_string (titles : List String)
    (similarity : List (List ℚ)) (movie : String)
    (h : ∀ t ∈ titles, lower t ≠ lower movie) :
    recommend titles similarity movie = Sum.inl errorMessage := by
  have hnone : findTitleIdx titles movie = none := by
    apply findIdx?_none_of_forall
    intro t ht
    simpa using h t ht
  unfold recommend
  rw [hnone]

/-- Witness for the amended C1 at a concrete absent title. -/
theorem recommend_no_match_is_error_string_witness :
    (∀ t ∈ ["A", "B", "C"], lower t ≠ lower "Zed") ∧
    recommend ["A", "B", "C"] [[1, 0, 0], [0, 1, 0], [0, 0, 1]] "Zed" =
      Sum.inl errorMessage :=
  ⟨by decide,
   recommend_no_match_is_error_string ["A", "B", "C"] [[1, 0, 0], [0, 1, 0], [0, 0, 1]]
     "Zed" (by decide)⟩

/-! ## C4: self-exclusion fails on tied duplicates -/

/-- Claim C4 (code bug): with two identical-tag movies at corpus indices 0 and
1 — so their vectors are equal and their cosine similarity is exactly 1 —
querying the index-1 movie returns a list containing that movie itself: the
stable descending sort places the tied duplicate (index 0) first, and the
`[1:6]` slice drops the duplicate instead of the queried movie. -/
theorem recommend_includes_self_at_duplicate :
    findTitleIdx ["A", "B", "C"] "B" = some 1 ∧
    ["A", "B", "C"].getD 1 "" = "B" ∧
    recommend ["A", "B", "C"] [[1, 1, 0], [1, 1, 0], [0, 0, 1]] "B" =
      Sum.inr ["B", "C"] ∧
    "B" ∈ ["B", "C"] := by
  exact ⟨by decide, by decide, by decide, by decide⟩

/-! ## C9: cast and director contributions to the tag bag -/

theorem extractCastFrom_eq_take :
    ∀ (l : List NamedEntity) (k : Nat),
      extractCastFrom k l = (l.take (3 - k)).map fun c => c.name := by
  intro l
  induction l with
  | nil => intro k; simp [extractCastFrom]
  | cons c cs ih =>
      intro k
      by_cases hk : k < 3
      · have h3 : 3 - k = (3 - (k + 1)) + 1 := by omega
        simp only [extractCastFrom]
        rw [if_pos hk, ih (k + 1), h3, List.take_succ_cons, List.map_cons]
      · have h3 : 3 - k = 0 := by omega
        simp only [extractCastFrom]
        rw [if_neg hk, h3, List.take_zero, List.map_nil]

theorem extract_director_eq_find :
    ∀ crew : List CrewMember,
      extract_director crew =
        ((crew.find? fun c => c.job == "Director").map fun c => c.name).toList := by
  intro crew
  induction crew with
  | nil => simp [extract_director]
  | cons c cs ih =>
      by_cases h : (c.job == "Director") = true
      · simp only [extract_director]
        rw [if_pos h, List.find?_cons_of_pos cs h]
        rfl
      · simp only [extract_director]
        rw [if_neg h, List.find?_cons_of_neg cs h]
        exact ih

/-- Claim C9 (confirmed): the feature assembler contributes exactly the first
three cast names (source order) and at most one crew name — the first crew
entry whose job is `"Director"` — to the tag bag; later cast members and
non-director crew never reach `tags`. -/
theorem feature_assembler_cast_director (cast : List NamedEntity)
    (crew : List CrewMember) (m : MovieRecord) :
    extract_cast cast = (cast.take 3).map (fun c => c.name) ∧
    (extract_cast cast).length ≤ 3 ∧
    extract_director crew =
      ((crew.find? fun c => c.job == "Director").map fun c => c.name).toList ∧
    (extract_director crew).length ≤ 1 ∧
    tags m =
      overviewTokens m.overview ++
        (extract_names m.genres).map removeSpaces ++
        (extract_names m.keywords).map removeSpaces ++
        ((m.cast.take 3).map fun c => c.name).map removeSpaces ++
        (((m.crew.find? fun c => c.job == "Director").map fun c => c.name).toList).map
          removeSpaces := by
  have hcast : ∀ l : List NamedEntity, extract_cast l = (l.take 3).map fun c => c.name := by
    intro l
    unfold extract_cast
    simpa using extractCastFrom_eq_take l 0
  refine ⟨hcast cast, ?_, extract_director_eq_find crew, ?_, ?_⟩
  · rw [hcast cast, List.length_map, List.length_take]
    exact min_le_left 3 cast.length
  · rw [extract_director_eq_find crew]
    cases crew.find? fun c => c.job == "Director" with
    | none => simp
    | some c => simp
  · unfold tags
    rw [hcast m.cast, extract_director_eq_find m.crew]

/-! ## C10: label conversion and the split input -/

/-- Claim C10 (confirmed): the label conversion maps `"spam"` to `1` and
`"ham"` to `0`; every other category value becomes a missing label (`none`,
modelling the pandas NaN) without raising; and the label column handed to
`train_test_split` keeps one entry per preprocessed row — rows with unmapped
categories are not filtered out before the split. -/
theorem spam_label_conversion_and_split (rows : List RawMailRow) :
    labelMap "spam" = some 1 ∧
    labelMap "ham" = some 0 ∧
    (∀ c : String, c ≠ "spam" → c ≠ "ham" → labelMap c = none) ∧
    (splitInput rows).2 = (preprocessed rows).map (fun r => labelMap r.Category) ∧
    (splitInput rows).2.length = (preprocessed rows).length ∧
    (∀ r ∈ preprocessed rows, labelMap r.Category ∈ (splitInput rows).2) := by
  refine ⟨rfl, rfl, ?_, rfl, ?_, ?_⟩
  · intro c h1 h2
    unfold labelMap
    rw [if_neg h1, if_neg h2]
  · simp [splitInput, labelColumn]
  · intro r hr
    exact List.mem_map_of_mem (fun r => labelMap r.Category) hr

/-- Witness for C10: a row whose category is neither `"spam"` nor `"ham"`
keeps its missing label in the split input. -/
theorem spam_label_conversion_and_split_witness :
    ("other" ≠ "spam" ∧ "other" ≠ "ham" ∧ labelMap "other" = none) ∧
    (MailRow.mk "other" "x" ∈ preprocessed [⟨some "other", some "x"⟩] ∧
      labelMap (MailRow.mk "other" "x").Category ∈
        (splitInput [⟨some "other", some "x"⟩]).2) :=
  ⟨⟨by decide, by decide,
    (spam_label_conversion_and_split []).2.2.1 "other" (by decide) (by decide)⟩,
   ⟨by decide,
    (spam_label_conversion_and_split [⟨some "other", some "x"⟩]).2.2.2.2.2
      (MailRow.mk "other" "x") (by decide)⟩⟩

/-! ## C8: classifier training guards -/

/-- Claim C8 (corrected), counterexample to the claim as stated: with an empty
vector list and a nonempty label list the counts differ, yet training cannot
fail with `LabelMismatchError` as the claim demands, because the emptiness
condition also holds and produces `EmptyTrainingSetError`. -/
theorem train_overlap_counterexample :
    ([] : List (List ℚ)).length ≠ ([1] : List ℚ).length ∧
    train [] [1] = Except.error TrainError.EmptyTrainingSetError ∧
    TrainError.EmptyTrainingSetError ≠ TrainError.LabelMismatchError :=
  ⟨by decide, rfl, by decide⟩

/-- Claim C8 (amended): training fails with `EmptyTrainingSetError` whenever
either input is empty, with `LabelMismatchError` whenever both are nonempty
and the counts differ, and in every failing case no model value is produced. -/
theorem train_error_guards (vectors : List (List ℚ)) (labels : List ℚ) :
    (vectors = [] ∨ labels = [] →
      train vectors labels = Except.error TrainError.EmptyTrainingSetError) ∧
    (vectors ≠ [] → labels ≠ [] → vectors.length ≠ labels.length →
      train vectors labels = Except.error TrainError.LabelMismatchError) ∧
    ((vectors = [] ∨ labels = [] ∨ vectors.length ≠ labels.length) →
      ∀ m : Model, train vectors labels ≠ Except.ok m) := by
  refine ⟨?_, ?_, ?_⟩
  · intro h
    unfold train
    rw [if_pos h]
  · intro h1 h2 h3
    unfold train
    rw [if_neg ?_, if_pos h3]
    rintro (rfl | rfl)
    · exact h1 rfl
    · exact h2 rfl
  · intro h m
    unfold train
    by_cases hg : vectors = [] ∨ labels = []
    · rw [if_pos hg]
      exact fun hc => Except.noConfusion hc
    · rw [if_neg hg]
      have h3 : vectors.length ≠ labels.length := by
        rcases h with h | h | h
        · exact absurd (Or.inl h) hg
        · exact absurd (Or.inr h) hg
        · exact h
      rw [if_pos h3]
      exact fun hc => Except.noConfusion hc

/-- Witness for the amended C8: both failure modes at concrete inputs. -/
theorem train_error_guards_witness :
    (([] : List (List ℚ)) = [] ∨ ([] : List ℚ) = []) ∧
    train [] [] = Except.error TrainError.EmptyTrainingSetError ∧
    (([[1]] : List (List ℚ)) ≠ [] ∧ ([1, 0] : List ℚ) ≠ [] ∧
      ([[1]] : List (List ℚ)).length ≠ ([1, 0] : List ℚ).length) ∧
    train [[1]] [1, 0] = Except.error TrainError.LabelMismatchError :=
  ⟨Or.inl rfl, (train_error_guards [] []).1 (Or.inl rfl),
   ⟨by decide, by decide, by decide⟩,
   (train_error_guards [[1]] [1, 0]).2.1 (by decide) (by decide) (by decide)⟩

/-! ## C7: vocabulary determinism and the fixed tie-break -/

theorem vocabLe_total (C : List (List String)) (t u : String) :
    vocabLe C t u ∨ vocabLe C u t := by
  rcases lt_trichotomy (docFreq C t) (docFreq C u) with h | h | h
  · exact Or.inr (Or.inl h)
  · rcases le_total t u with hle | hle
    · exact Or.inl (Or.inr ⟨h, hle⟩)
    · exact Or.inr (Or.inr ⟨h.symm, hle⟩)
  · exact Or.inl (Or.inl h)

theorem vocabLe_trans (C : List (List String)) (t u v : String)
    (h1 : vocabLe C t u) (h2 : vocabLe C u v) : vocabLe C t v := by
  rcases h1 with h1 | ⟨he1, hl1⟩
  · rcases h2 with h2 | ⟨he2, hl2⟩
    · exact Or.inl (h2.trans h1)
    · exact Or.inl (he2 ▸ h1)
  · rcases h2 with h2 | ⟨he2, hl2⟩
    · exact Or.inl (by rw [he1]; exact h2)
    · exact Or.inr ⟨he1.trans he2, hl1.trans hl2⟩

theorem eligibleTerms_nodup (C : List (List String)) (O : VocabOptions) :
    (eligibleTerms C O).Nodup :=
  (List.nodup_dedup C.flatten).filter _

theorem sorted_vocab_pairwise (C : List (List String)) (O : VocabOptions) :
    (sortBy (vocabLe C) (eligibleTerms C O)).Pairwise
      (fun t u => docFreq C u < docFreq C t ∨ (docFreq C t = docFreq C u ∧ t < u)) := by
  have hle := pairwise_sortBy (vocabLe_total C) (vocabLe_trans C) (eligibleTerms C O)
  have hne : (sortBy (vocabLe C) (eligibleTerms C O)).Pairwise (· ≠ ·) :=
    ((sortBy_perm (eligibleTerms C O)).nodup_iff).mpr (eligibleTerms_nodup C O)
  refine (hle.and hne).imp ?_
  intro t u h
  rcases h.1 with h1 | ⟨he, hl⟩
  · exact Or.inl h1
  · exact Or.inr ⟨he, lt_of_le_of_ne hl h.2⟩

/-- Claim C7 (confirmed): vocabulary fitting is a pure function, so two runs
on the same corpus and options yield the same term-to-index mapping; and the
index order of the mapping follows the fixed tie-break — strictly descending
document frequency, with frequency ties broken by strictly ascending
lexicographic term order — also when the `max_terms` cap cuts the list. -/
theorem vocab_fit_deterministic_fixed_tiebreak (C : List (List String))
    (O : VocabOptions) :
    fitVocab C O = fitVocab C O ∧
    (fitVocab C O).Pairwise
      (fun t u => docFreq C u < docFreq C t ∨ (docFreq C t = docFreq C u ∧ t < u)) ∧
    (∀ k, O.max_terms = some k → (fitVocab C O).length ≤ k) := by
  refine ⟨rfl, ?_, ?_⟩
  · rcases hO : O.max_terms with _ | k
    · simp only [fitVocab, hO]
      exact sorted_vocab_pairwise C O
    · simp only [fitVocab, hO]
      exact (sorted_vocab_pairwise C O).sublist (List.take_sublist k _)
  · intro k hk
    rcases hO : O.max_terms with _ | k'
    · rw [hO] at hk
      exact absurd hk (by simp)
    · rw [hO] at hk
      have hkk : k' = k := Option.some.inj hk
      simp only [fitVocab, hO, hkk]
      exact List.length_take_le k _

/-- Witness for C7 at a concrete corpus with a `max_terms` cap. -/
theorem vocab_fit_deterministic_fixed_tiebreak_witness :
    fitVocab [["aa", "bb"], ["aa"]] ⟨some 1, [], 1⟩ =
      fitVocab [["aa", "bb"], ["aa"]] ⟨some 1, [], 1⟩ ∧
    (fitVocab [["aa", "bb"], ["aa"]] ⟨some 1, [], 1⟩).length ≤ 1 :=
  ⟨(vocab_fit_deterministic_fixed_tiebreak [["aa", "bb"], ["aa"]] ⟨some 1, [], 1⟩).1,
   (vocab_fit_deterministic_fixed_tiebreak [["aa", "bb"], ["aa"]] ⟨some 1, [], 1⟩).2.2
     1 rfl⟩

/-! ## Norm lemmas for the encoder -/

theorem normSq_nonneg (v : List ℝ) : 0 ≤ normSq v := by
  unfold normSq
  apply List.sum_nonneg
  intro x hx
  rcases List.mem_map.mp hx with ⟨y, _, rfl⟩
  exact sq_nonneg y

theorem normSq_ne_zero_of_l2norm {u : List ℝ} (h : l2norm u ≠ 0) : normSq u ≠ 0 :=
  fun hc => h (by unfold l2norm; rw [hc]; exact Real.sqrt_zero)

theorem normSq_map_div (v : List ℝ) (s : ℝ) :
    normSq (v.map fun x => x / s) = normSq v / s ^ 2 := by
  unfold normSq
  induction v with
  | nil => simp
  | cons a l ih =>
      simp only [List.map_cons, List.sum_cons]
      rw [div_pow, ih, add_div]

theorem normSq_map_zero (l : List α) : normSq (l.map fun _ => (0 : ℝ)) = 0 := by
  unfold normSq
  induction l with
  | nil => simp
  | cons a as ih => simp [ih]

theorem dotR_self (u : List ℝ) : dotR u u = normSq u := by
  unfold dotR normSq
  induction u with
  | nil => simp
  | cons a l ih =>
      simp only [List.zipWith_cons_cons, List.map_cons, List.sum_cons]
      rw [ih, pow_two]

/-- Two identical nonzero vectors — e.g. the vectors of two movies with
identical tags — have cosine similarity exactly 1; this grounds the tied
similarity matrix used in the self-inclusion counterexample. -/
theorem cosineSim_self (u : List ℝ) (h : l2norm u ≠ 0) : cosineSim u u = 1 := by
  unfold cosineSim
  rw [if_neg (by push_neg; exact ⟨h, h⟩), dotR_self]
  have hm : l2norm u * l2norm u = normSq u := by
    unfold l2norm
    exact Real.mul_self_sqrt (normSq_nonneg u)
  rw [hm]
  exact div_self (normSq_ne_zero_of_l2norm h)

/-! ## C2: normalization of the transform -/

/-- Claim C2 (corrected), counterexample to the claim as stated: in the
two-document corpus `[["a"], ["a"]]` the fitted vocabulary contains `"a"`, so
the document `["a"]` has an in-vocabulary term; but `df("a") = N = 2` makes
`idf("a") = ln(2/2) = 0`, the weight vector is zero, and the transform has
norm 0, not 1. -/
theorem tfidf_norm_one_counterexample :
    ("a" ∈ fitVocab [["a"], ["a"]] {} ∧ "a" ∈ (["a"] : List String)) ∧
    l2norm (transform [["a"], ["a"]] (fitVocab [["a"], ["a"]] {}) ["a"]) ≠ 1 := by
  have hv : fitVocab [["a"], ["a"]] {} = ["a"] := by decide
  have hw : tfidfWeights [["a"], ["a"]] ["a"] ["a"] = [0] := by
    have hdf : docFreq [["a"], ["a"]] "a" = 2 := by decide
    have htf : tf "a" (["a"] : List String) = 1 := by decide
    unfold tfidfWeights
    simp only [List.map_cons, List.map_nil]
    rw [htf]
    unfold idf
    rw [if_pos (by decide : "a" ∈ (["a"] : List String)), hdf]
    norm_num
  have hl2 : l2norm (tfidfWeights [["a"], ["a"]] ["a"] ["a"]) = 0 := by
    rw [hw]
    unfold l2norm normSq
    simp
  refine ⟨⟨by rw [hv]; decide, by decide⟩, ?_⟩
  rw [hv]
  unfold transform
  rw [if_pos hl2, hl2]
  norm_num

/-- Claim C2 (amended): the transform of a document whose raw tf-idf weight
vector is nonzero has Euclidean norm exactly 1; a document sharing no term
with the vocabulary keeps the all-zero vector (the zero-norm division is
guarded, never NaN). -/
theorem tfidf_norm_one_or_zero (corpus : List (List String)) (vocab : List String)
    (d : List String) :
    (l2norm (tfidfWeights corpus vocab d) ≠ 0 →
      l2norm (transform corpus vocab d) = 1) ∧
    ((∀ t ∈ vocab, t ∉ d) → transform corpus vocab d = vocab.map fun _ => 0) := by
  constructor
  · intro h
    have hns : normSq (tfidfWeights corpus vocab d) ≠ 0 := normSq_ne_zero_of_l2norm h
    unfold transform
    rw [if_neg h]
    unfold l2norm
    rw [normSq_map_div]
    rw [Real.sq_sqrt (normSq_nonneg _), div_self hns, Real.sqrt_one]
  · intro h
    have hzero : tfidfWeights corpus vocab d = vocab.map fun _ => 0 := by
      unfold tfidfWeights
      apply List.map_congr_left
      intro t ht
      have htf : tf t d = 0 := List.count_eq_zero.mpr (h t ht)
      rw [htf]
      simp
    have hl2 : l2norm (tfidfWeights corpus vocab d) = 0 := by
      rw [hzero]
      unfold l2norm
      rw [normSq_map_zero]
      exact Real.sqrt_zero
    unfold transform
    rw [if_pos hl2, hzero]

/-- Witness for the amended C2: a document with a nonzero weight vector gets
norm 1, and a document disjoint from the vocabulary gets the zero vector. -/
theorem tfidf_norm_one_or_zero_witness :
    (l2norm (tfidfWeights [["a"], ["b"]] ["a"] ["a"]) ≠ 0 ∧
      l2norm (transform [["a"], ["b"]] ["a"] ["a"]) = 1) ∧
    ((∀ t ∈ (["a"] : List String), t ∉ (["b"] : List String)) ∧
      transform [["a"], ["b"]] ["a"] ["b"] = (["a"] : List String).map fun _ => 0) := by
  have hw : tfidfWeights [["a"], ["b"]] ["a"] ["a"] = [Real.log 2] := by
    have hdf : docFreq [["a"], ["b"]] "a" = 1 := by decide
    have htf : tf "a" (["a"] : List String) = 1 := by decide
    unfold tfidfWeights
    simp only [List.map_cons, List.map_nil]
    rw [htf]
    unfold idf
    rw [if_pos (by decide : "a" ∈ (["a"] : List String)), hdf]
    norm_num
  have h1 : l2norm (tfidfWeights [["a"], ["b"]] ["a"] ["a"]) ≠ 0 := by
    rw [hw]
    unfold l2norm normSq
    simp only [List.map_cons, List.map_nil, List.sum_cons, List.sum_nil, add_zero]
    exact Real.sqrt_ne_zero'.mpr (pow_pos (Real.log_pos one_lt_two) 2)
  have h2 : ∀ t ∈ (["a"] : List String), t ∉ (["b"] : List String) := by decide
  exact ⟨⟨h1, (tfidf_norm_one_or_zero [["a"], ["b"]] ["a"] ["a"]).1 h1⟩,
    ⟨h2, (tfidf_norm_one_or_zero [["a"], ["b"]] ["a"] ["b"]).2 h2⟩⟩

/-! ## C3: the idf formula and vocabulary-only output -/

/-- Claim C3 (confirmed): for terms of the fitted vocabulary the encoder uses
`idf(t) = ln(N / df(t))` with the natural logarithm; terms outside the
vocabulary get idf 0, and the output vector has exactly one entry per
vocabulary term — out-of-vocabulary terms are excluded rather than erroring. -/
theorem tfidf_idf_formula (corpus : List (List String)) (vocab : List String)
    (d : List String) (t : String) :
    (t ∈ vocab →
      idf corpus vocab t = Real.log ((corpus.length : ℝ) / (docFreq corpus t : ℝ))) ∧
    (t ∉ vocab → idf corpus vocab t = 0) ∧
    (tfidfWeights corpus vocab d).length = vocab.length ∧
    (∀ i : Nat, (tfidfWeights corpus vocab d)[i]? =
      vocab[i]?.map fun u => (tf u d : ℝ) * idf corpus vocab u) := by
  refine ⟨fun h => ?_, fun h => ?_, ?_, fun i => ?_⟩
  · unfold idf
    rw [if_pos h]
  · unfold idf
    rw [if_neg h]
  · unfold tfidfWeights
    rw [List.length_map]
  · unfold tfidfWeights
    rw [List.getElem?_map]

/-- Witness for C3: the idf of an in-vocabulary term and of an
out-of-vocabulary term, at a concrete corpus. -/
theorem tfidf_idf_formula_witness :
    ("a" ∈ (["a"] : List String) ∧
      idf [["a"], ["b"]] ["a"] "a" =
        Real.log ((([["a"], ["b"]] : List (List String)).length : ℝ) /
          (docFreq [["a"], ["b"]] "a" : ℝ))) ∧
    ("b" ∉ (["a"] : List String) ∧ idf [["a"], ["b"]] ["a"] "b" = 0) :=
  ⟨⟨by decide, (tfidf_idf_formula [["a"], ["b"]] ["a"] [] "a").1 (by decide)⟩,
   ⟨by decide, (tfidf_idf_formula [["a"], ["b"]] ["a"] [] "b").2.1 (by decide)⟩⟩

end MovieSpam
